import Mathlib

/-!
# Verification of the order-book trading simulator

A shallow embedding of the market-data normalization engine
(`useOrderBook.js`) and the execution simulation engine (`app/page.js`)
of the repository, together with proofs of the specification claims.

JavaScript numbers are modelled by exact rationals (`ℚ`); `NaN`-producing
parses are modelled by `Option ℚ` (`none` = failed parse).  JavaScript
`Map`s keyed by price strings are modelled as association lists keyed by
the raw string, each wire string carried together with its numeric parse.
-/

set_option maxHeartbeats 1000000

namespace GqTask

/-- The supported exchanges, the `EXCHANGES` constant of `app/page.js`. -/
inductive Venue where
  | OKX : Venue
  | BYBIT : Venue
  | DERIBIT : Venue
deriving DecidableEq, Repr

/-- Order side, `side ∈ {Buy, Sell}` in the source. -/
inductive Side where
  | Buy : Side
  | Sell : Side
deriving DecidableEq, Repr

/-- Order type, `orderType ∈ {Market, Limit}` in the source. -/
inductive OrderType where
  | Market : OrderType
  | Limit : OrderType
deriving DecidableEq, Repr

/-- Order lifecycle status strings used by `app/page.js`. -/
inductive OStatus where
  | Pending : OStatus
  | Untriggered : OStatus
  | Filled : OStatus
  | Cancelled : OStatus
  | Failed : OStatus
deriving DecidableEq, Repr

/-- One price level of a book exposed to consumers (`{price, size}`). -/
structure Level where
  price : ℚ
  size : ℚ
deriving DecidableEq, Repr

/-- An order book snapshot: `{bids, asks}`. -/
structure Book where
  bids : List Level
  asks : List Level
deriving DecidableEq, Repr

/-- Order parameters as entered in the simulation form.  `price` is the
limit price and is only consulted for Limit orders, mirroring the source
where `params.price` is only parsed under an `orderType.includes('Limit')`
guard. -/
structure OrderParams where
  symbol : String
  venue : Venue
  side : Side
  orderType : OrderType
  price : ℚ
  quantity : ℚ
deriving DecidableEq, Repr

/-- The result record returned by `calculateMarketImpact`
(`{avgFillPrice, slippage, filledPercentage, priceImpact}`). -/
structure FillResult where
  avgFillPrice : ℚ
  slippage : ℚ
  filledPercentage : ℚ
  priceImpact : ℚ
deriving DecidableEq, Repr

/-- A simulated order / position of the ledger.  `stopPrice` models
`order.stopLoss.stopPrice`; `positionId` is the back reference from a stop
order to the position it protects. -/
structure Order where
  id : Nat
  positionId : Option Nat
  params : OrderParams
  status : OStatus
  result : Option FillResult
  pnl : Option ℚ
  livePnl : Option ℚ
  exitResult : Option FillResult
  stopPrice : Option ℚ
deriving DecidableEq, Repr

/-- The zero-valued sentinel result returned on every degenerate input. -/
def zeroImpact : FillResult := ⟨0, 0, 0, 0⟩

/-- `venue === 'DERIBIT' ? parseFloat(level.size) / levelPrice :
parseFloat(level.size)` — Deribit sizes are quote-notional and are
converted to base quantity. -/
def levelSizeInBase (venue : Venue) (l : Level) : ℚ :=
  match venue with
  | Venue.DERIBIT => l.size / l.price
  | _ => l.size

/-- Accumulator of the level walk in `calculateMarketImpact`:
the mutable locals `sizeToFill`, `totalCost`, `filledSize`. -/
structure WalkAcc where
  sizeToFill : ℚ
  totalCost : ℚ
  filledSize : ℚ
deriving DecidableEq, Repr

/-- Consuming one level in `calculateMarketImpact`:
`fillableSize = min(sizeToFill, levelSizeInBase)` then the three
accumulator updates. -/
def consumeLevel (venue : Venue) (acc : WalkAcc) (l : Level) : WalkAcc :=
  let fillableSize := min acc.sizeToFill (levelSizeInBase venue l)
  ⟨acc.sizeToFill - fillableSize, acc.totalCost + fillableSize * l.price,
    acc.filledSize + fillableSize⟩

/-- One iteration of the `for (const level of relevantBook)` loop of
`calculateMarketImpact`.  The `acc.sizeToFill ≤ 0` test models the
`break`; the two limit-price guards model the `continue` statements
(`levelPrice > price` for Buy, `levelPrice < price` for Sell). -/
def walkStep (venue : Venue) (side : Side) (orderType : OrderType)
    (limitPrice : ℚ) (acc : WalkAcc) (l : Level) : WalkAcc :=
  if acc.sizeToFill ≤ 0 then acc
  else
    match side, orderType with
    | Side.Buy, OrderType.Limit =>
        if limitPrice < l.price then acc else consumeLevel venue acc l
    | Side.Sell, OrderType.Limit =>
        if l.price < limitPrice then acc else consumeLevel venue acc l
    | _, _ => consumeLevel venue acc l

/-- The whole level walk of `calculateMarketImpact` over a book side. -/
def walkBook (venue : Venue) (side : Side) (orderType : OrderType)
    (limitPrice : ℚ) (orderSize : ℚ) (levels : List Level) : WalkAcc :=
  levels.foldl (walkStep venue side orderType limitPrice) ⟨orderSize, 0, 0⟩

/-- `calculateMarketImpact(orderParams, book)` from `app/page.js`. -/
def calculateMarketImpact (op : OrderParams) (book : Book) : FillResult :=
  if op.quantity ≤ 0 then zeroImpact
  else
    let relevantBook := match op.side with
      | Side.Buy => book.asks
      | Side.Sell => book.bids
    match relevantBook with
    | [] => zeroImpact
    | top :: rest =>
      let bestPrice := top.price
      if bestPrice ≤ 0 then zeroImpact
      else
        let acc := walkBook op.venue op.side op.orderType op.price op.quantity
          (top :: rest)
        if acc.filledSize = 0 then zeroImpact
        else
          let avgFillPrice := acc.totalCost / acc.filledSize
          { avgFillPrice := avgFillPrice
            slippage := |(avgFillPrice - bestPrice) / bestPrice| * 100
            filledPercentage := acc.filledSize / op.quantity * 100
            priceImpact := |avgFillPrice - bestPrice| }

/-- The concrete book of the specification scenarios:
`asks = [{100,1},{101,2}]` (bids only needed to be non-empty). -/
def testBook : Book :=
  { bids := [⟨99, 1⟩], asks := [⟨100, 1⟩, ⟨101, 2⟩] }

/-- `order.result.avgFillPrice` — the entry price of a filled position.
A `Filled` position always carries a result; the `getD 0` default is
unreachable in the flows modelled here. -/
def entryPrice (o : Order) : ℚ :=
  (o.result.map FillResult.avgFillPrice).getD 0

/-- `calculatePnl(order, currentPrice)` from `app/page.js`.  The guard
models `if (!order?.result?.avgFillPrice || !currentPrice) return 0`
(JavaScript falsiness: a missing result, a zero entry price or a zero
reference price all yield 0). -/
def calculatePnl (o : Order) (currentPrice : ℚ) : ℚ :=
  match o.result with
  | none => 0
  | some r =>
    if r.avgFillPrice = 0 ∨ currentPrice = 0 then 0
    else
      match o.params.side with
      | Side.Buy => (currentPrice - r.avgFillPrice) * o.params.quantity
      | Side.Sell => (r.avgFillPrice - currentPrice) * o.params.quantity

/-- The opposite side, used when closing a position or attaching a stop. -/
def flipSide : Side → Side
  | Side.Buy => Side.Sell
  | Side.Sell => Side.Buy

/-- `orders.find(o => o.id === oid)`. -/
def findOrder (oid : Nat) : List Order → Option Order
  | [] => none
  | o :: rest => if o.id = oid then some o else findOrder oid rest

/-- `findIndex` followed by a single in-place assignment: update the first
order satisfying `·.id = oid`; a no-op when no order matches
(`findIndex === -1`). -/
def updateById (oid : Nat) (f : Order → Order) : List Order → List Order
  | [] => []
  | o :: rest => if o.id = oid then f o :: rest else o :: updateById oid f rest

/-- `updatedOrders.findIndex(p => p.id === orderToExecute.positionId)`
followed by a single assignment: update the first order whose id the
given (optional) position reference names. -/
def updateByPosRef (pid : Option Nat) (f : Order → Order) : List Order → List Order
  | [] => []
  | o :: rest => if some o.id = pid then f o :: rest else o :: updateByPosRef pid f rest

/-- `orders.filter(o => o.id !== oid)`. -/
def removeById (oid : Nat) : List Order → List Order
  | [] => []
  | o :: rest => if o.id = oid then removeById oid rest else o :: removeById oid rest

/-- `orders.filter(sl => sl.positionId !== orderId)` — prune the stop
orders attached to a closed position. -/
def removeStopsOf (oid : Nat) : List Order → List Order
  | [] => []
  | o :: rest =>
    if o.positionId = some oid then removeStopsOf oid rest
    else o :: removeStopsOf oid rest

/-- `confirmCancelOrder` from `app/page.js`:
`p.map(o => o.id === orderToCancel ? { ...o, status: 'Cancelled' } : o)`.
Note that the order's current status is not consulted. -/
def confirmCancelOrder (orderToCancel : Nat) (orders : List Order) : List Order :=
  orders.map (fun o =>
    if o.id = orderToCancel then { o with status := OStatus.Cancelled } else o)

/-- Mark the order `Failed`.  The source stores `result: { error: … }`,
an error record carrying no numeric fields; it is modelled as `none`. -/
def markFailed (oid : Nat) (orders : List Order) : List Order :=
  orders.map (fun o =>
    if o.id = oid then { o with status := OStatus.Failed, result := none } else o)

/-- The merge-target search of `scheduleOrderExecution`:
`prevOrders.find(o => o.status === 'Filled' && !o.pnl &&
o.params.symbol === params.symbol && o.params.side === params.side &&
o.params.venue === params.venue)`. -/
def findMergeTarget (params : OrderParams) : List Order → Option Order
  | [] => none
  | o :: rest =>
    if o.status = OStatus.Filled ∧ o.pnl = none ∧
        o.params.symbol = params.symbol ∧ o.params.side = params.side ∧
        o.params.venue = params.venue then some o
    else findMergeTarget params rest

/-- The body of the `setTimeout` callback of `scheduleOrderExecution`
(`app/page.js`): the delayed execution of a newly placed order against
the then-current book `book` (`none` models an unavailable book).  The
status re-check, the market-data check, the merge into an existing open
position (note: the merge adds the *requested* quantity `params.quantity`)
and the Market/Limit failure split are all taken verbatim from the
source.  `result: { ...o.result, avgFillPrice: newAvgPrice }` is modelled
with `Option.map`; the merge target is a `Filled` position and always
carries a result in the source. -/
def executeScheduled (oid : Nat) (params : OrderParams) (book : Option Book)
    (prevOrders : List Order) : List Order :=
  match findOrder oid prevOrders with
  | none => prevOrders
  | some orderToExecute =>
    if orderToExecute.status ≠ OStatus.Pending then prevOrders
    else
      match book with
      | none => markFailed oid prevOrders
      | some executionBook =>
        if executionBook.bids.isEmpty ∨ executionBook.asks.isEmpty then
          markFailed oid prevOrders
        else
          let result := calculateMarketImpact params executionBook
          if 0 < result.filledPercentage then
            match findMergeTarget params prevOrders with
            | some existingPosition =>
              let oldTotalCost := entryPrice existingPosition * existingPosition.params.quantity
              let newTotalCost := result.avgFillPrice * params.quantity
              let totalQuantity := existingPosition.params.quantity + params.quantity
              let newAvgPrice := (oldTotalCost + newTotalCost) / totalQuantity
              removeById oid (prevOrders.map (fun o =>
                if o.id = existingPosition.id then
                  { o with
                    params := { o.params with quantity := totalQuantity },
                    result := o.result.map (fun r => { r with avgFillPrice := newAvgPrice }) }
                else o))
            | none =>
              prevOrders.map (fun o =>
                if o.id = oid then
                  { o with status := OStatus.Filled, result := some result }
                else o)
          else
            match params.orderType with
            | OrderType.Market => markFailed oid prevOrders
            | OrderType.Limit => prevOrders

/-- The closing parameters built by `handleClosePosition`:
`{ ...orderToClose.params, side: closeSide, orderType: 'Market' }`. -/
def closeParams (o : Order) : OrderParams :=
  { o.params with side := flipSide o.params.side, orderType := OrderType.Market }

/-- `handleClosePosition(orderId)` from `app/page.js`: simulate an
opposite-side Market order, set `pnl` (computed from the close's average
fill price) and `exitResult` on the position, and prune stop orders
referencing it.  When the book is missing or one-sided only a message
modal is shown and the ledger is unchanged. -/
def handleClosePosition (oid : Nat) (book : Option Book) (orders : List Order) :
    List Order :=
  match findOrder oid orders with
  | none => orders
  | some orderToClose =>
    match book with
    | none => orders
    | some b =>
      if b.bids.isEmpty ∨ b.asks.isEmpty then orders
      else
        let closeResult := calculateMarketImpact (closeParams orderToClose) b
        let pnl := calculatePnl orderToClose closeResult.avgFillPrice
        removeStopsOf oid (orders.map (fun o =>
          if o.id = oid then
            { o with pnl := some pnl, exitResult := some closeResult }
          else o))

/-- `handleAddQuantity(orderId, additionalQuantity)` from `app/page.js`:
simulate a Market fill for the additional quantity and merge it into the
position with the weighted-average formula (note: the *requested*
additional quantity enters both the cost and the quantity sum, and there
is no fill-success check). -/
def handleAddQuantity (oid : Nat) (additionalQuantity : ℚ) (book : Option Book)
    (orders : List Order) : List Order :=
  match findOrder oid orders with
  | none => orders
  | some orderToModify =>
    match book with
    | none => orders
    | some b =>
      if b.bids.isEmpty ∨ b.asks.isEmpty then orders
      else
        let addParams := { orderToModify.params with
          quantity := additionalQuantity, orderType := OrderType.Market }
        let addResult := calculateMarketImpact addParams b
        let oldTotalCost := entryPrice orderToModify * orderToModify.params.quantity
        let newTotalCost := addResult.avgFillPrice * additionalQuantity
        let totalQuantity := orderToModify.params.quantity + additionalQuantity
        let newAvgPrice := (oldTotalCost + newTotalCost) / totalQuantity
        orders.map (fun o =>
          if o.id = oid then
            { o with
              params := { o.params with quantity := totalQuantity },
              result := o.result.map (fun r => { r with avgFillPrice := newAvgPrice }) }
          else o)

/-- `executeTriggeredOrder(orderToExecute, book)` from the order-evaluation
effect of `app/page.js`: an `Untriggered` (stop) order is executed as a
Market order; on fill the referenced position receives `pnl` (computed
from the fill's average price) and `exitResult`, and the stop order itself
is removed; a `Pending` limit order is marked `Filled`.  Returns the
success flag and the updated ledger. -/
def executeTriggeredOrder (book : Book) (cur : List Order) (o : Order) :
    Bool × List Order :=
  let executionParams :=
    match o.status with
    | OStatus.Untriggered => { o.params with orderType := OrderType.Market }
    | _ => o.params
  let result := calculateMarketImpact executionParams book
  if result.filledPercentage ≤ 0 then (false, cur)
  else
    match o.status with
    | OStatus.Untriggered =>
      let closed := updateByPosRef o.positionId
        (fun p => { p with
          pnl := some (calculatePnl p result.avgFillPrice),
          exitResult := some result }) cur
      (true, removeById o.id closed)
    | _ =>
      (true, updateById o.id
        (fun x => { x with status := OStatus.Filled, result := some result }) cur)

/-- The `conditionMet` computation of the order-evaluation effect:
a `Pending` Limit order is marketable when `limitPrice ≥ bestAsk` (Buy)
or `limitPrice ≤ bestBid` (Sell); an `Untriggered` stop triggers when
`midPrice ≤ stopPrice` (Sell) or `midPrice ≥ stopPrice` (Buy), with
`midPrice = (bestBid + bestAsk) / 2`. -/
def conditionMet (bb ba : ℚ) (o : Order) : Bool :=
  match o.status, o.params.orderType with
  | OStatus.Pending, OrderType.Limit =>
    match o.params.side with
    | Side.Buy => decide (ba ≤ o.params.price)
    | Side.Sell => decide (o.params.price ≤ bb)
  | OStatus.Untriggered, _ =>
    match o.stopPrice, o.params.side with
    | some sp, Side.Sell => decide ((bb + ba) / 2 ≤ sp)
    | some sp, Side.Buy => decide (sp ≤ (bb + ba) / 2)
    | none, _ => false
  | _, _ => false

/-- The `ordersToProcess` filter of the order-evaluation effect:
`o.status === 'Pending' || o.status === 'Untriggered' ||
(o.status === 'Filled' && !o.pnl)`. -/
def needsProcessing (o : Order) : Bool :=
  match o.status, o.pnl with
  | OStatus.Pending, _ => true
  | OStatus.Untriggered, _ => true
  | OStatus.Filled, none => true
  | _, _ => false

/-- The body of the `ordersToProcess.forEach(order => …)` loop of the
order-evaluation effect, processing one order `o` (an element of the
snapshot taken at the start of the effect) against the evolving ledger
`cur`: zero the live PnL of orders of another symbol, refresh the live
PnL of open positions, and execute the order whose trigger condition is
met. -/
def processOrder (sym : String) (bb ba : ℚ) (book : Book)
    (cur : List Order) (o : Order) : List Order :=
  if o.params.symbol ≠ sym then
    match o.livePnl with
    | some v =>
      if v = 0 then cur
      else updateById o.id (fun x => { x with livePnl := some 0 }) cur
    | none => cur
  else
    let cur1 :=
      match o.status, o.pnl with
      | OStatus.Filled, none =>
        let newLivePnl := calculatePnl o ((bb + ba) / 2)
        if o.livePnl = some newLivePnl then cur
        else updateById o.id (fun x => { x with livePnl := some newLivePnl }) cur
      | _, _ => cur
    if conditionMet bb ba o then (executeTriggeredOrder book cur1 o).2 else cur1

/-- One run of the order-evaluation `useEffect` of `app/page.js` for one
book update: compute best bid/ask and the mid-price, bail out when the
market data is not ready (JavaScript falsiness of `midPrice`, `bestBid`,
`bestAsk`), then fold the per-order processing over the snapshot of
orders needing processing. -/
def evalStep (sym : String) (book : Book) (orders : List Order) : List Order :=
  match book.bids, book.asks with
  | b0 :: _, a0 :: _ =>
    let bb := b0.price
    let ba := a0.price
    if (bb + ba) / 2 = 0 ∨ bb = 0 ∨ ba = 0 then orders
    else
      (orders.filter needsProcessing).foldl (processOrder sym bb ba book) orders
  | _, _ => orders

/-- A sequence of book updates, each one evaluated by `evalStep`. -/
def evalSteps (sym : String) (books : List Book) (orders : List Order) :
    List Order :=
  books.foldl (fun os b => evalStep sym b os) orders

/-!
## The book store (`useOrderBook.js`)

One side of a venue's raw book is a JavaScript `Map` from price *strings*
to size *strings*.  A wire string is modelled as a `RawStr`: the string
itself (`str`, the `Map` key identity) together with its numeric parse
(`val`, what `parseFloat` returns on it; `none` models `NaN`).  The map
is an association list keyed by `str` — `Map.set`/`Map.delete` compare
the raw string, so distinct strings with an equal numeric parse (such as
`"100"` and `"100.0"`) are distinct entries, exactly as in the program —
while all numeric uses (`parseFloat(s) === 0`, `updateUI`) read `val`.
In the program `val` is determined by `str`; every concrete `RawStr`
used below respects that.
-/

/-- A wire string with its numeric parse (`none` = parses to `NaN`). -/
structure RawStr where
  str : String
  val : Option ℚ
deriving DecidableEq, Repr

/-- One side of a raw book: an association list of (price, size) wire
strings, keyed by the raw price string. -/
abbrev SideMap := List (RawStr × RawStr)

/-- JavaScript `Map.prototype.set`: replace the value of an existing key
(same string) in place, else append the new entry at the end. -/
def mapSet (k v : RawStr) : SideMap → SideMap
  | [] => [(k, v)]
  | e :: rest => if e.1.str = k.str then (k, v) :: rest else e :: mapSet k v rest

/-- JavaScript `Map.prototype.delete`: remove the entry with the same
string key. -/
def mapDelete (k : RawStr) : SideMap → SideMap
  | [] => []
  | e :: rest => if e.1.str = k.str then rest else e :: mapDelete k rest

/-- JavaScript `new Map(entries)`: insert the entries in order. -/
def mapOfList (entries : List (RawStr × RawStr)) : SideMap :=
  entries.foldl (fun m e => mapSet e.1 e.2 m) []

/-- One delta entry of the OKX/Bybit `onmessage` handler:
`parseFloat(s) === 0 ? book.delete(p) : book.set(p, s)` — a size string
that parses to exactly 0 deletes the level stored under the price
string, any other size (`NaN` included) is stored. -/
def applyDeltaEntry (m : SideMap) (e : RawStr × RawStr) : SideMap :=
  if e.2.val = some 0 then mapDelete e.1 m else mapSet e.1 e.2 m

/-- A whole delta message: `bidsDelta.forEach(…)`. -/
def applyDelta (m : SideMap) (deltas : List (RawStr × RawStr)) : SideMap :=
  deltas.foldl applyDeltaEntry m

/-- A snapshot message: `bookRef.bids = new Map(bidsDelta)` — the side is
replaced wholesale, the entries stored verbatim. -/
def applySnapshot (deltas : List (RawStr × RawStr)) : SideMap :=
  mapOfList deltas

/-- One inbound message for one side of a book: a full snapshot or a
delta. -/
inductive SideOp where
  | snapshot : List (RawStr × RawStr) → SideOp
  | delta : List (RawStr × RawStr) → SideOp

/-- Apply one message to the raw side. -/
def applyOp (m : SideMap) : SideOp → SideMap
  | SideOp.snapshot entries => applySnapshot entries
  | SideOp.delta entries => applyDelta m entries

/-- The raw side after a whole message history (the `Map` starts empty). -/
def applyOps (ops : List SideOp) : SideMap :=
  ops.foldl applyOp []

/-- The per-entry parse of `updateUI`:
`{ price: parseFloat(p), size: parseFloat(s) }` followed by the
`!isNaN(price) && !isNaN(size)` filter — an entry survives exactly when
both parses succeed. -/
def parseLevel : RawStr × RawStr → Option Level
  | (p, s) =>
    match p.val, s.val with
    | some pv, some sv => some ⟨pv, sv⟩
    | _, _ => none

/-- The bids comparator `(a, b) => b.price - a.price`: descending order. -/
def bidGE (a b : Level) : Prop := b.price ≤ a.price

/-- The asks comparator `(a, b) => a.price - b.price`: ascending order. -/
def askLE (a b : Level) : Prop := a.price ≤ b.price

instance : DecidableRel bidGE := fun a b =>
  inferInstanceAs (Decidable (b.price ≤ a.price))

instance : DecidableRel askLE := fun a b =>
  inferInstanceAs (Decidable (a.price ≤ b.price))

instance : IsTotal Level bidGE := ⟨fun a b => le_total b.price a.price⟩

instance : IsTrans Level bidGE := ⟨fun _ _ _ hab hbc => le_trans hbc hab⟩

instance : IsTotal Level askLE := ⟨fun a b => le_total a.price b.price⟩

instance : IsTrans Level askLE := ⟨fun _ _ _ hab hbc => le_trans hab hbc⟩

/-- `updateUI`, bids side: parse, filter out `NaN`s, sort descending. -/
def buildBids (m : SideMap) : List Level :=
  (m.filterMap parseLevel).insertionSort bidGE

/-- `updateUI`, asks side: parse, filter out `NaN`s, sort ascending. -/
def buildAsks (m : SideMap) : List Level :=
  (m.filterMap parseLevel).insertionSort askLE

/-!
## Concrete inputs used by witnesses and counterexamples
-/

/-- A plain Buy Market parameter record on a non-notional venue. -/
def paramsBuyBtc : OrderParams :=
  ⟨"BTC-USDT", Venue.OKX, Side.Buy, OrderType.Market, 0, 1⟩

/-- A position that got `Filled` (entry price 100) while its cancellation
was being confirmed. -/
def filledOrderC2 : Order :=
  ⟨7, none, paramsBuyBtc, OStatus.Filled, some ⟨100, 0, 100, 0⟩, none, none, none, none⟩

/-- An order cancelled before its delayed execution fired. -/
def cancelledOrderC7 : Order :=
  ⟨3, none, paramsBuyBtc, OStatus.Cancelled, none, none, none, none, none⟩

/-- An open Buy position, entry price 100, quantity 2. -/
def buyPosC9 : Order :=
  ⟨10, none, ⟨"BTC-USDT", Venue.OKX, Side.Buy, OrderType.Market, 0, 2⟩,
    OStatus.Filled, some ⟨100, 0, 100, 0⟩, none, none, none, none⟩

/-- An open Sell position, entry price 100, quantity 2. -/
def sellPosC9 : Order :=
  ⟨11, none, ⟨"BTC-USDT", Venue.OKX, Side.Sell, OrderType.Market, 0, 2⟩,
    OStatus.Filled, some ⟨100, 0, 100, 0⟩, none, none, none, none⟩

/-- A raw book side holding one malformed entry (its price string
`"abc"` parses to `NaN`) next to one well-formed level. -/
def rawSideC10 : SideMap :=
  [(⟨"abc", none⟩, ⟨"1", some 1⟩), (⟨"99", some 99⟩, ⟨"1", some 1⟩)]

/-- The wire string `"100"`, parsing to 100. -/
def raw100 : RawStr := ⟨"100", some 100⟩

/-- The wire string `"100.0"` — a *different* `Map` key than `"100"`,
with the same numeric parse 100. -/
def raw100dot : RawStr := ⟨"100.0", some 100⟩

/-- Buy Market parameters of quantity 5 — only partially fillable against
`testBook` (3 of 5). -/
def paramsC3 : OrderParams :=
  ⟨"BTC-USDT", Venue.OKX, Side.Buy, OrderType.Market, 0, 5⟩

/-- An existing open position: quantity 1 at entry price 100. -/
def posC3 : Order :=
  ⟨0, none, paramsBuyBtc, OStatus.Filled, some ⟨100, 0, 100, 0⟩, none, none, none, none⟩

/-- A newly placed Pending order of quantity 5, awaiting its delayed
execution. -/
def newC3 : Order :=
  ⟨1, none, paramsC3, OStatus.Pending, none, none, none, none, none⟩

/-- An existing open position for the averaging example: qty 1 @ 100. -/
def posMergeW : Order :=
  ⟨0, none, paramsBuyBtc, OStatus.Filled, some ⟨100, 0, 100, 0⟩, none, none, none, none⟩

/-- A newly placed Pending order of quantity 1 for the averaging example. -/
def newMergeW : Order :=
  ⟨1, none, paramsBuyBtc, OStatus.Pending, none, none, none, none, none⟩

/-- A book whose best ask is 110 with ample size: the quantity-1 Buy fills
completely at 110. -/
def bookMergeW : Book := { bids := [⟨109, 1⟩], asks := [⟨110, 5⟩] }

/-- The marketability condition of a resting limit order against a book,
exactly as the order-evaluation effect computes it: the book must have a
usable top of book (both heads present, neither zero, mid-price nonzero —
otherwise the effect bails out before evaluating any order) and the price
comparison `limitPrice ≥ bestAsk` (Buy) or `limitPrice ≤ bestBid` (Sell)
must hold. -/
def limitWouldFill (p : OrderParams) (book : Book) : Prop :=
  match book.bids, book.asks with
  | b0 :: _, a0 :: _ =>
    ¬((b0.price + a0.price) / 2 = 0 ∨ b0.price = 0 ∨ a0.price = 0) ∧
    ((p.side = Side.Buy ∧ a0.price ≤ p.price) ∨
     (p.side = Side.Sell ∧ p.price ≤ b0.price))
  | _, _ => False

/-- Parameters of the stop order protecting a Buy position: the stop's
side is the opposite (Sell). -/
def stopParamsC5 : OrderParams :=
  ⟨"BTC-USDT", Venue.OKX, Side.Sell, OrderType.Market, 0, 1⟩

/-- The protected open Buy position: qty 1 at entry 100. -/
def posC5 : Order :=
  ⟨0, none, paramsBuyBtc, OStatus.Filled, some ⟨100, 0, 100, 0⟩, none, none, none, none⟩

/-- A Sell-side stop order at stop price 95 protecting `posC5`. -/
def stopC5 : Order :=
  ⟨1, some 0, stopParamsC5, OStatus.Untriggered, none, none, none, none, some 95⟩

/-- A book whose mid-price `(90+91)/2 = 90.5` is at or below the stop
price 95, triggering the Sell stop. -/
def bookC5 : Book := { bids := [⟨90, 5⟩], asks := [⟨91, 2⟩] }

/-- A resting Sell Limit order priced at 105, above every best bid the
books below ever show. -/
def pendC6 : Order :=
  ⟨5, none, ⟨"BTC-USDT", Venue.OKX, Side.Sell, OrderType.Limit, 105, 1⟩,
    OStatus.Pending, none, none, none, none, none⟩

/-- First book tick: best bid 100 (below the 105 limit). -/
def bookC6a : Book := { bids := [⟨100, 1⟩], asks := [⟨101, 1⟩] }

/-- Second book tick: best bid 102 (still below the 105 limit). -/
def bookC6b : Book := { bids := [⟨102, 1⟩], asks := [⟨103, 1⟩] }

/-!
## General lemmas about the ledger list operations
-/

theorem findOrder_mem {oid : Nat} :
    ∀ {l : List Order} {o : Order}, findOrder oid l = some o → o ∈ l := by
  intro l
  induction l with
  | nil => intro o h; simp [findOrder] at h
  | cons a rest ih =>
    intro o h
    by_cases ha : a.id = oid
    · simp only [findOrder, if_pos ha, Option.some.injEq] at h
      exact h ▸ List.mem_cons_self a rest
    · simp only [findOrder, if_neg ha] at h
      exact List.mem_cons_of_mem a (ih h)

theorem findOrder_id {oid : Nat} :
    ∀ {l : List Order} {o : Order}, findOrder oid l = some o → o.id = oid := by
  intro l
  induction l with
  | nil => intro o h; simp [findOrder] at h
  | cons a rest ih =>
    intro o h
    by_cases ha : a.id = oid
    · simp only [findOrder, if_pos ha, Option.some.injEq] at h
      exact h ▸ ha
    · simp only [findOrder, if_neg ha] at h
      exact ih h

theorem findMergeTarget_mem {p : OrderParams} :
    ∀ {l : List Order} {o : Order}, findMergeTarget p l = some o → o ∈ l := by
  intro l
  induction l with
  | nil => intro o h; simp [findMergeTarget] at h
  | cons a rest ih =>
    intro o h
    by_cases ha : a.status = OStatus.Filled ∧ a.pnl = none ∧
        a.params.symbol = p.symbol ∧ a.params.side = p.side ∧ a.params.venue = p.venue
    · simp only [findMergeTarget, if_pos ha, Option.some.injEq] at h
      exact h ▸ List.mem_cons_self a rest
    · simp only [findMergeTarget, if_neg ha] at h
      exact List.mem_cons_of_mem a (ih h)

theorem mem_updateById_of_ne {oid : Nat} {f : Order → Order} {x : Order}
    (hne : x.id ≠ oid) :
    ∀ {l : List Order}, x ∈ l → x ∈ updateById oid f l := by
  intro l
  induction l with
  | nil => intro h; simp at h
  | cons a rest ih =>
    intro h
    rcases List.mem_cons.mp h with rfl | hrest
    · rw [updateById, if_neg (by simpa using hne)]
      exact List.mem_cons_self x _
    · rw [updateById]
      split
      · exact List.mem_cons_of_mem _ hrest
      · exact List.mem_cons_of_mem a (ih hrest)

theorem mem_updateByPosRef_of_ne {pid : Option Nat} {f : Order → Order} {x : Order}
    (hne : some x.id ≠ pid) :
    ∀ {l : List Order}, x ∈ l → x ∈ updateByPosRef pid f l := by
  intro l
  induction l with
  | nil => intro h; simp at h
  | cons a rest ih =>
    intro h
    rcases List.mem_cons.mp h with rfl | hrest
    · rw [updateByPosRef, if_neg (by simpa using hne)]
      exact List.mem_cons_self x _
    · rw [updateByPosRef]
      split
      · exact List.mem_cons_of_mem _ hrest
      · exact List.mem_cons_of_mem a (ih hrest)

theorem updateByPosRef_mem_self {f : Order → Order} {x : Order} :
    ∀ {l : List Order}, (l.map Order.id).Nodup → x ∈ l →
      f x ∈ updateByPosRef (some x.id) f l := by
  intro l
  induction l with
  | nil => intro _ h; simp at h
  | cons a rest ih =>
    intro hnd h
    rw [List.map_cons, List.nodup_cons] at hnd
    rcases List.mem_cons.mp h with rfl | hrest
    · rw [updateByPosRef, if_pos rfl]
      exact List.mem_cons_self _ _
    · by_cases ha : a.id = x.id
      · exact absurd (ha ▸ List.mem_map_of_mem Order.id hrest) hnd.1
      · rw [updateByPosRef, if_neg (by simpa using ha)]
        exact List.mem_cons_of_mem a (ih hnd.2 hrest)

theorem updateById_map_id {oid : Nat} {f : Order → Order}
    (hf : ∀ z : Order, (f z).id = z.id) :
    ∀ l : List Order, (updateById oid f l).map Order.id = l.map Order.id := by
  intro l
  induction l with
  | nil => rfl
  | cons a rest ih =>
    rw [updateById]
    split
    · simp [hf a]
    · simp [ih]

theorem updateByPosRef_map_id {pid : Option Nat} {f : Order → Order}
    (hf : ∀ z : Order, (f z).id = z.id) :
    ∀ l : List Order, (updateByPosRef pid f l).map Order.id = l.map Order.id := by
  intro l
  induction l with
  | nil => rfl
  | cons a rest ih =>
    rw [updateByPosRef]
    split
    · simp [hf a]
    · simp [ih]

theorem updateById_ids_nodup {oid : Nat} {f : Order → Order}
    (hf : ∀ z : Order, (f z).id = z.id) {l : List Order}
    (h : (l.map Order.id).Nodup) :
    ((updateById oid f l).map Order.id).Nodup := by
  rw [updateById_map_id hf]
  exact h

theorem updateByPosRef_ids_nodup {pid : Option Nat} {f : Order → Order}
    (hf : ∀ z : Order, (f z).id = z.id) {l : List Order}
    (h : (l.map Order.id).Nodup) :
    ((updateByPosRef pid f l).map Order.id).Nodup := by
  rw [updateByPosRef_map_id hf]
  exact h

theorem removeById_sublist {oid : Nat} :
    ∀ l : List Order, List.Sublist (removeById oid l) l := by
  intro l
  induction l with
  | nil => exact List.Sublist.refl []
  | cons a rest ih =>
    rw [removeById]
    split
    · exact ih.cons a
    · exact ih.cons₂ a

theorem mem_removeById {oid : Nat} {x : Order} (hne : x.id ≠ oid) :
    ∀ {l : List Order}, x ∈ l → x ∈ removeById oid l := by
  intro l
  induction l with
  | nil => intro h; simp at h
  | cons a rest ih =>
    intro h
    rcases List.mem_cons.mp h with rfl | hrest
    · rw [removeById, if_neg hne]
      exact List.mem_cons_self x _
    · rw [removeById]
      split
      · exact ih hrest
      · exact List.mem_cons_of_mem a (ih hrest)

theorem removeById_id_ne {oid : Nat} :
    ∀ {l : List Order} {x : Order}, x ∈ removeById oid l → x.id ≠ oid := by
  intro l
  induction l with
  | nil => intro x h; simp [removeById] at h
  | cons a rest ih =>
    intro x h
    rw [removeById] at h
    by_cases ha : a.id = oid
    · rw [if_pos ha] at h
      exact ih h
    · rw [if_neg ha] at h
      rcases List.mem_cons.mp h with rfl | hrest
      · exact ha
      · exact ih hrest

/-!
## Claim C1
-/

/-- Claim C1: on a non-notional venue against `asks = [{100,1},{101,2}]`,
a Buy Market order of quantity 2 yields `avgFillPrice = 100.5`
(`201/2`), `filledPercentage = 100`, `slippage = 0.5` and
`priceImpact = 0.5`; a Buy Market order of quantity 5 against the same
book walks to `filledSize = 3` with `sizeToFill = 2` remaining unfilled
(`filledPercentage = 60`) and still returns a normal result record —
no error is raised. -/
theorem impact_scenarios_c1 :
    calculateMarketImpact ⟨"BTC-USDT", Venue.OKX, Side.Buy, OrderType.Market, 0, 2⟩ testBook =
      ⟨201/2, 1/2, 100, 1/2⟩ ∧
    walkBook Venue.OKX Side.Buy OrderType.Market 0 5 testBook.asks =
      ⟨2, 302, 3⟩ ∧
    calculateMarketImpact ⟨"BTC-USDT", Venue.OKX, Side.Buy, OrderType.Market, 0, 5⟩ testBook =
      ⟨302/3, 2/3, 60, 2/3⟩ := by
  refine ⟨?_, ?_, ?_⟩ <;>
    norm_num [calculateMarketImpact, walkBook, walkStep, consumeLevel, levelSizeInBase,
      testBook, zeroImpact, List.foldl, min_def, Rat.abs_def, Rat.divInt_eq_div]

/-!
## Claim C2
-/

/-- Claim C2 counterexample: confirming the cancellation of an order that
has meanwhile become `Filled` does *not* leave its status unchanged —
`confirmCancelOrder` overwrites the status to `Cancelled` without any
commit-time re-check. -/
theorem cancel_overwrites_filled_c2 :
    filledOrderC2.status = OStatus.Filled ∧
    (confirmCancelOrder 7 [filledOrderC2]).map Order.status = [OStatus.Cancelled] := by
  constructor
  · rfl
  · simp [confirmCancelOrder, filledOrderC2]

/-- Claim C2 (amended): `confirmCancelOrder` unconditionally rewrites the
status of every order carrying the requested id to `Cancelled`, whatever
its previous status; orders with other ids are untouched, and when no
order has the id the ledger is unchanged.  There is no commit-time status
re-check. -/
theorem cancel_unconditional_c2 (cid : Nat) (orders : List Order) :
    (∀ o ∈ orders, o.id = cid →
      { o with status := OStatus.Cancelled } ∈ confirmCancelOrder cid orders) ∧
    (∀ o ∈ orders, o.id ≠ cid → o ∈ confirmCancelOrder cid orders) ∧
    ((∀ o ∈ orders, o.id ≠ cid) → confirmCancelOrder cid orders = orders) := by
  refine ⟨?_, ?_, ?_⟩
  · intro o ho hid
    have := List.mem_map_of_mem
      (fun o => if o.id = cid then { o with status := OStatus.Cancelled } else o) ho
    simpa [confirmCancelOrder, hid] using this
  · intro o ho hid
    have := List.mem_map_of_mem
      (fun o => if o.id = cid then { o with status := OStatus.Cancelled } else o) ho
    simpa [confirmCancelOrder, hid] using this
  · intro hall
    unfold confirmCancelOrder
    rw [List.map_congr_left (fun o ho => if_neg (hall o ho))]
    exact List.map_id' orders

/-- Witness for the amended C2 at a concrete input. -/
theorem cancel_unconditional_c2_witness :
    { filledOrderC2 with status := OStatus.Cancelled } ∈
      confirmCancelOrder 7 [filledOrderC2, cancelledOrderC7] ∧
    cancelledOrderC7 ∈ confirmCancelOrder 7 [filledOrderC2, cancelledOrderC7] := by
  constructor
  · exact (cancel_unconditional_c2 7 [filledOrderC2, cancelledOrderC7]).1 filledOrderC2
      (List.mem_cons_self _ _) rfl
  · exact (cancel_unconditional_c2 7 [filledOrderC2, cancelledOrderC7]).2.1 cancelledOrderC7
      (List.mem_cons_of_mem _ (List.mem_cons_self _ _)) (by decide)

/-!
## Claim C7
-/

/-- Claim C7: the delayed-execution timer re-checks the order's status at
firing time; if the order was cancelled in the interim the callback
leaves the ledger unchanged, so the order's final state is `Cancelled`. -/
theorem cancelled_timer_noop_c7 (oid : Nat) (params : OrderParams)
    (book : Option Book) (orders : List Order) (o : Order)
    (hfind : findOrder oid orders = some o)
    (hc : o.status = OStatus.Cancelled) :
    executeScheduled oid params book orders = orders := by
  unfold executeScheduled
  rw [hfind]
  simp [hc]

/-- Witness for C7 at a concrete input. -/
theorem cancelled_timer_noop_c7_witness :
    executeScheduled 3 paramsBuyBtc (some testBook) [cancelledOrderC7] =
      [cancelledOrderC7] :=
  cancelled_timer_noop_c7 3 paramsBuyBtc (some testBook) [cancelledOrderC7]
    cancelledOrderC7 (by simp [findOrder, cancelledOrderC7]) rfl

/-!
## Claim C8
-/

theorem walkStep_skip_buy {venue : Venue} {limitPrice : ℚ} {acc : WalkAcc} {l : Level}
    (h : limitPrice < l.price) :
    walkStep venue Side.Buy OrderType.Limit limitPrice acc l = acc := by
  unfold walkStep
  split
  · rfl
  · simp [h]

theorem walkStep_skip_sell {venue : Venue} {limitPrice : ℚ} {acc : WalkAcc} {l : Level}
    (h : l.price < limitPrice) :
    walkStep venue Side.Sell OrderType.Limit limitPrice acc l = acc := by
  unfold walkStep
  split
  · rfl
  · simp [h]

theorem walk_filter_buy (venue : Venue) (limitPrice : ℚ) :
    ∀ (levels : List Level) (acc : WalkAcc),
      levels.foldl (walkStep venue Side.Buy OrderType.Limit limitPrice) acc =
      (levels.filter (fun l => decide (l.price ≤ limitPrice))).foldl
        (walkStep venue Side.Buy OrderType.Limit limitPrice) acc := by
  intro levels
  induction levels with
  | nil => intro acc; rfl
  | cons l rest ih =>
    intro acc
    by_cases h : l.price ≤ limitPrice
    · rw [List.foldl_cons, List.filter_cons, if_pos (by simpa using h), List.foldl_cons]
      exact ih _
    · rw [List.foldl_cons, walkStep_skip_buy (not_le.mp h), List.filter_cons,
        if_neg (by simpa using h)]
      exact ih acc

theorem walk_filter_sell (venue : Venue) (limitPrice : ℚ) :
    ∀ (levels : List Level) (acc : WalkAcc),
      levels.foldl (walkStep venue Side.Sell OrderType.Limit limitPrice) acc =
      (levels.filter (fun l => decide (limitPrice ≤ l.price))).foldl
        (walkStep venue Side.Sell OrderType.Limit limitPrice) acc := by
  intro levels
  induction levels with
  | nil => intro acc; rfl
  | cons l rest ih =>
    intro acc
    by_cases h : limitPrice ≤ l.price
    · rw [List.foldl_cons, List.filter_cons, if_pos (by simpa using h), List.foldl_cons]
      exact ih _
    · rw [List.foldl_cons, walkStep_skip_sell (not_le.mp h), List.filter_cons,
        if_neg (by simpa using h)]
      exact ih acc

theorem walk_allskip_buy (venue : Venue) (limitPrice : ℚ) :
    ∀ levels : List Level, (∀ m ∈ levels, limitPrice < m.price) →
      ∀ acc : WalkAcc,
        levels.foldl (walkStep venue Side.Buy OrderType.Limit limitPrice) acc = acc := by
  intro levels
  induction levels with
  | nil => intro _ acc; rfl
  | cons l rest ih =>
    intro hall acc
    rw [List.foldl_cons, walkStep_skip_buy (hall l (List.mem_cons_self _ _))]
    exact ih (fun m hm => hall m (List.mem_cons_of_mem _ hm)) acc

theorem walk_allskip_sell (venue : Venue) (limitPrice : ℚ) :
    ∀ levels : List Level, (∀ m ∈ levels, m.price < limitPrice) →
      ∀ acc : WalkAcc,
        levels.foldl (walkStep venue Side.Sell OrderType.Limit limitPrice) acc = acc := by
  intro levels
  induction levels with
  | nil => intro _ acc; rfl
  | cons l rest ih =>
    intro hall acc
    rw [List.foldl_cons, walkStep_skip_sell (hall l (List.mem_cons_self _ _))]
    exact ih (fun m hm => hall m (List.mem_cons_of_mem _ hm)) acc

theorem walk_takeWhile_buy (venue : Venue) (limitPrice : ℚ) :
    ∀ levels : List Level,
      List.Pairwise (fun a b : Level => a.price ≤ b.price) levels →
      ∀ acc : WalkAcc,
        levels.foldl (walkStep venue Side.Buy OrderType.Limit limitPrice) acc =
        (levels.takeWhile (fun l => decide (l.price ≤ limitPrice))).foldl
          (walkStep venue Side.Buy OrderType.Limit limitPrice) acc := by
  intro levels
  induction levels with
  | nil => intro _ acc; rfl
  | cons l rest ih =>
    intro hp acc
    rcases List.pairwise_cons.mp hp with ⟨hhead, htail⟩
    by_cases h : l.price ≤ limitPrice
    · rw [List.foldl_cons, List.takeWhile_cons, if_pos (by simpa using h), List.foldl_cons]
      exact ih htail _
    · rw [List.takeWhile_cons, if_neg (by simpa using h)]
      exact walk_allskip_buy venue limitPrice (l :: rest)
        (fun m hm => by
          rcases List.mem_cons.mp hm with rfl | hm
          · exact not_le.mp h
          · exact lt_of_lt_of_le (not_le.mp h) (hhead m hm)) acc

theorem walk_takeWhile_sell (venue : Venue) (limitPrice : ℚ) :
    ∀ levels : List Level,
      List.Pairwise (fun a b : Level => b.price ≤ a.price) levels →
      ∀ acc : WalkAcc,
        levels.foldl (walkStep venue Side.Sell OrderType.Limit limitPrice) acc =
        (levels.takeWhile (fun l => decide (limitPrice ≤ l.price))).foldl
          (walkStep venue Side.Sell OrderType.Limit limitPrice) acc := by
  intro levels
  induction levels with
  | nil => intro _ acc; rfl
  | cons l rest ih =>
    intro hp acc
    rcases List.pairwise_cons.mp hp with ⟨hhead, htail⟩
    by_cases h : limitPrice ≤ l.price
    · rw [List.foldl_cons, List.takeWhile_cons, if_pos (by simpa using h), List.foldl_cons]
      exact ih htail _
    · rw [List.takeWhile_cons, if_neg (by simpa using h)]
      exact walk_allskip_sell venue limitPrice (l :: rest)
        (fun m hm => by
          rcases List.mem_cons.mp hm with rfl | hm
          · exact not_le.mp h
          · exact lt_of_le_of_lt (hhead m hm) (not_le.mp h)) acc

/-- Claim C8: the Limit-order level walk never consumes a level whose
price violates the limit (walking the book is identical to walking the
book restricted to within-limit levels), and on a book sorted in its
natural order (asks ascending for Buy, bids descending for Sell) the walk
is identical to one that stops at the first level crossing the limit
boundary — it does not continue filling at worse levels. -/
theorem limit_walk_respects_limit_c8 (venue : Venue) (limitPrice orderSize : ℚ)
    (levels : List Level) :
    (walkBook venue Side.Buy OrderType.Limit limitPrice orderSize levels =
      walkBook venue Side.Buy OrderType.Limit limitPrice orderSize
        (levels.filter (fun l => decide (l.price ≤ limitPrice)))) ∧
    (List.Pairwise (fun a b : Level => a.price ≤ b.price) levels →
      walkBook venue Side.Buy OrderType.Limit limitPrice orderSize levels =
      walkBook venue Side.Buy OrderType.Limit limitPrice orderSize
        (levels.takeWhile (fun l => decide (l.price ≤ limitPrice)))) ∧
    (walkBook venue Side.Sell OrderType.Limit limitPrice orderSize levels =
      walkBook venue Side.Sell OrderType.Limit limitPrice orderSize
        (levels.filter (fun l => decide (limitPrice ≤ l.price)))) ∧
    (List.Pairwise (fun a b : Level => b.price ≤ a.price) levels →
      walkBook venue Side.Sell OrderType.Limit limitPrice orderSize levels =
      walkBook venue Side.Sell OrderType.Limit limitPrice orderSize
        (levels.takeWhile (fun l => decide (limitPrice ≤ l.price)))) := by
  refine ⟨walk_filter_buy venue limitPrice levels _, fun hp => ?_,
    walk_filter_sell venue limitPrice levels _, fun hp => ?_⟩
  · exact walk_takeWhile_buy venue limitPrice levels hp _
  · exact walk_takeWhile_sell venue limitPrice levels hp _

/-- Witness for C8: a Buy Limit at 100 against the ascending test asks
stops at the boundary level. -/
theorem limit_walk_respects_limit_c8_witness :
    walkBook Venue.OKX Side.Buy OrderType.Limit 100 5 testBook.asks =
      walkBook Venue.OKX Side.Buy OrderType.Limit 100 5
        (testBook.asks.takeWhile (fun l => decide (l.price ≤ 100))) :=
  (limit_walk_respects_limit_c8 Venue.OKX 100 5 testBook.asks).2.1
    (by norm_num [testBook, List.pairwise_cons])

/-!
## Claim C9
-/

/-- Claim C9: `calculatePnl` computes
`(referencePrice − entryPrice) × quantity` for a Buy position and
`(entryPrice − referencePrice) × quantity` for a Sell position (for a
position with an entry price and a nonzero reference price), and
`handleClosePosition` records the realized `pnl` exactly from the close
simulation's average fill price — the exit fill price, not the
mid-price. -/
theorem pnl_formula_and_close_c9 (o : Order) (r : FillResult) (ref : ℚ)
    (hres : o.result = some r) (hentry : r.avgFillPrice ≠ 0) (href : ref ≠ 0)
    (oid : Nat) (book : Book) (orders : List Order) (oc : Order)
    (hfind : findOrder oid orders = some oc)
    (hne : ¬(book.bids.isEmpty ∨ book.asks.isEmpty)) :
    (calculatePnl o ref =
      match o.params.side with
      | Side.Buy => (ref - r.avgFillPrice) * o.params.quantity
      | Side.Sell => (r.avgFillPrice - ref) * o.params.quantity) ∧
    (handleClosePosition oid (some book) orders =
      removeStopsOf oid (orders.map (fun x =>
        if x.id = oid then
          { x with
            pnl := some (calculatePnl oc
              (calculateMarketImpact (closeParams oc) book).avgFillPrice),
            exitResult := some (calculateMarketImpact (closeParams oc) book) }
        else x))) := by
  constructor
  · unfold calculatePnl
    simp only [hres]
    rw [if_neg (by push_neg; exact ⟨hentry, href⟩)]
  · unfold handleClosePosition
    simp only [hfind]
    rw [if_neg hne]

/-- Witness for C9: entry 100, exit 110, quantity 2 — a Buy position
yields `+20`, a Sell position yields `−20`; the close handler records
the pnl computed from the close's fill price. -/
theorem pnl_formula_and_close_c9_witness :
    calculatePnl buyPosC9 110 = 20 ∧ calculatePnl sellPosC9 110 = -20 := by
  have hb := (pnl_formula_and_close_c9 buyPosC9 ⟨100, 0, 100, 0⟩ 110 rfl
    (by norm_num) (by norm_num) 10 testBook [buyPosC9] buyPosC9
    (by simp [findOrder, buyPosC9]) (by simp [testBook])).1
  have hs := (pnl_formula_and_close_c9 sellPosC9 ⟨100, 0, 100, 0⟩ 110 rfl
    (by norm_num) (by norm_num) 11 testBook [sellPosC9] sellPosC9
    (by simp [findOrder, sellPosC9]) (by simp [testBook])).1
  constructor
  · rw [hb]; norm_num [buyPosC9]
  · rw [hs]; norm_num [sellPosC9]

/-!
## Claim C4
-/

theorem foldl_invariant {α β : Type} (step : β → α → β) (P : β → Prop) :
    ∀ (l : List α) (init : β), P init →
      (∀ acc a, a ∈ l → P acc → P (step acc a)) → P (l.foldl step init) := by
  intro l
  induction l with
  | nil => intro init h _; exact h
  | cons a rest ih =>
    intro init h hstep
    rw [List.foldl_cons]
    exact ih (step init a) (hstep init a (List.mem_cons_self _ _) h)
      (fun acc b hb => hstep acc b (List.mem_cons_of_mem _ hb))

theorem mapSet_keys_mem {k v : RawStr} {x : String} :
    ∀ {m : SideMap}, x ∈ (mapSet k v m).map (fun e => e.1.str) →
      x ∈ m.map (fun e => e.1.str) ∨ x = k.str := by
  intro m
  induction m with
  | nil =>
    intro h
    simp [mapSet] at h
    exact Or.inr h
  | cons e rest ih =>
    intro h
    by_cases he : e.1.str = k.str
    · rw [mapSet, if_pos he, List.map_cons] at h
      rcases List.mem_cons.mp h with rfl | hm
      · exact Or.inr rfl
      · exact Or.inl (List.mem_cons_of_mem _ hm)
    · rw [mapSet, if_neg he, List.map_cons] at h
      rcases List.mem_cons.mp h with rfl | hm
      · exact Or.inl (List.mem_cons_self _ _)
      · rcases ih hm with hm2 | rfl
        · exact Or.inl (List.mem_cons_of_mem _ hm2)
        · exact Or.inr rfl

theorem mapSet_keys_nodup {k v : RawStr} :
    ∀ {m : SideMap}, (m.map (fun e => e.1.str)).Nodup →
      ((mapSet k v m).map (fun e => e.1.str)).Nodup := by
  intro m
  induction m with
  | nil => intro _; simp [mapSet]
  | cons e rest ih =>
    intro h
    rw [List.map_cons, List.nodup_cons] at h
    by_cases he : e.1.str = k.str
    · rw [mapSet, if_pos he, List.map_cons, List.nodup_cons]
      exact ⟨he ▸ h.1, h.2⟩
    · rw [mapSet, if_neg he, List.map_cons, List.nodup_cons]
      refine ⟨fun hmem => ?_, ih h.2⟩
      rcases mapSet_keys_mem hmem with hm | heq
      · exact h.1 hm
      · exact he heq

theorem mapDelete_keys_sublist {k : RawStr} :
    ∀ m : SideMap, List.Sublist ((mapDelete k m).map (fun e => e.1.str))
      (m.map (fun e => e.1.str)) := by
  intro m
  induction m with
  | nil => exact List.Sublist.refl []
  | cons e rest ih =>
    rw [mapDelete]
    split
    · exact (List.Sublist.refl _).cons e.1.str
    · rw [List.map_cons, List.map_cons]
      exact ih.cons₂ e.1.str

theorem mapDelete_keys_nodup {k : RawStr} {m : SideMap}
    (h : (m.map (fun e => e.1.str)).Nodup) :
    ((mapDelete k m).map (fun e => e.1.str)).Nodup :=
  (mapDelete_keys_sublist m).nodup h

theorem mapDelete_not_mem {k : RawStr} :
    ∀ {m : SideMap}, (m.map (fun e => e.1.str)).Nodup →
      ∀ x ∈ mapDelete k m, x.1.str ≠ k.str := by
  intro m
  induction m with
  | nil => intro _ x hx; simp [mapDelete] at hx
  | cons e rest ih =>
    intro h x hx
    rw [List.map_cons, List.nodup_cons] at h
    by_cases he : e.1.str = k.str
    · rw [mapDelete, if_pos he] at hx
      intro hxk
      refine h.1 ?_
      rw [he, ← hxk]
      exact List.mem_map_of_mem (fun e => e.1.str) hx
    · rw [mapDelete, if_neg he] at hx
      rcases List.mem_cons.mp hx with rfl | hm
      · exact he
      · exact ih h.2 x hm

theorem mapOfList_keys_nodup (entries : List (RawStr × RawStr)) :
    ((mapOfList entries).map (fun e => e.1.str)).Nodup := by
  unfold mapOfList
  refine foldl_invariant (fun m e => mapSet e.1 e.2 m)
    (fun m : SideMap => (m.map (fun e => e.1.str)).Nodup) entries [] ?_
    (fun acc e _ hacc => mapSet_keys_nodup hacc)
  simp

theorem applyDeltaEntry_keys_nodup {m : SideMap} {e : RawStr × RawStr}
    (h : (m.map (fun e => e.1.str)).Nodup) :
    ((applyDeltaEntry m e).map (fun e => e.1.str)).Nodup := by
  unfold applyDeltaEntry
  split
  · exact mapDelete_keys_nodup h
  · exact mapSet_keys_nodup h

theorem applyOps_keys_nodup (ops : List SideOp) :
    ((applyOps ops).map (fun e => e.1.str)).Nodup := by
  unfold applyOps
  refine foldl_invariant applyOp
    (fun m : SideMap => (m.map (fun e => e.1.str)).Nodup) ops []
    ?_ (fun acc op _ hacc => ?_)
  · simp
  rcases op with entries | entries
  · exact mapOfList_keys_nodup entries
  · exact foldl_invariant applyDeltaEntry
      (fun m : SideMap => (m.map (fun e => e.1.str)).Nodup) entries acc hacc
      (fun acc2 e _ hacc2 => applyDeltaEntry_keys_nodup hacc2)

theorem buildBids_sorted (m : SideMap) :
    List.Pairwise bidGE (buildBids m) :=
  List.sorted_insertionSort bidGE (m.filterMap parseLevel)

theorem buildAsks_sorted (m : SideMap) :
    List.Pairwise askLE (buildAsks m) :=
  List.sorted_insertionSort askLE (m.filterMap parseLevel)

/-- Claim C4 counterexample: the claimed invariant fails on two counts.
A snapshot containing a zero-size entry is stored verbatim, so the
exposed book contains a level of size 0.  And the raw `Map` is keyed by
the price *string*: the distinct strings `"100"` and `"100.0"` both
parse to price 100 but are separate entries, so the exposed book holds
two levels at the same price — neither strictly descending nor free of
duplicate prices. -/
theorem book_invariant_violations_c4 :
    buildBids (applyOps [SideOp.snapshot [(raw100, ⟨"0", some 0⟩)]]) =
      [⟨100, 0⟩] ∧
    ¬ ((0 : ℚ) > 0) ∧
    buildBids (applyOps [SideOp.snapshot
      [(raw100, ⟨"1", some 1⟩), (raw100dot, ⟨"2", some 2⟩)]]) =
      [⟨100, 1⟩, ⟨100, 2⟩] ∧
    ¬ List.Pairwise (fun a b : Level => b.price < a.price)
      (buildBids (applyOps [SideOp.snapshot
        [(raw100, ⟨"1", some 1⟩), (raw100dot, ⟨"2", some 2⟩)]])) ∧
    ¬ ((buildBids (applyOps [SideOp.snapshot
        [(raw100, ⟨"1", some 1⟩), (raw100dot, ⟨"2", some 2⟩)]])).map
      Level.price).Nodup := by
  have h1 : buildBids (applyOps [SideOp.snapshot [(raw100, ⟨"0", some 0⟩)]]) =
      [⟨100, 0⟩] := by
    simp [buildBids, applyOps, applyOp, applySnapshot, mapOfList, mapSet,
      parseLevel, raw100, List.foldl, List.filterMap_cons, List.insertionSort,
      List.orderedInsert]
  have h2 : buildBids (applyOps [SideOp.snapshot
      [(raw100, ⟨"1", some 1⟩), (raw100dot, ⟨"2", some 2⟩)]]) =
      [⟨100, 1⟩, ⟨100, 2⟩] := by
    simp [buildBids, applyOps, applyOp, applySnapshot, mapOfList, mapSet,
      parseLevel, raw100, raw100dot, List.foldl, List.filterMap_cons,
      List.insertionSort, List.orderedInsert, bidGE]
  refine ⟨h1, by norm_num, h2, ?_, ?_⟩
  · rw [h2]
    simp
  · rw [h2]
    simp

/-- Claim C4 (amended): every exposed book side is *sorted* — bids
non-increasing and asks non-decreasing by price — whatever history of
snapshots and deltas produced it; the raw map never holds two entries
with the same price string; and a delta entry whose size parses to
exactly 0 deletes the level stored under that price string rather than
storing it.  However, two parts of the claim fail (see the
counterexample): duplicate exposed price levels are possible, because
the map is keyed by the raw price string and distinct strings with an
equal numeric parse are separate levels, so the sort is not strict; and
size > 0 is not an invariant, because snapshot application stores the
received levels verbatim, zero sizes included. -/
theorem book_invariant_c4 (ops : List SideOp) :
    List.Pairwise bidGE (buildBids (applyOps ops)) ∧
    List.Pairwise askLE (buildAsks (applyOps ops)) ∧
    ((applyOps ops).map (fun e => e.1.str)).Nodup ∧
    (∀ (m : SideMap) (k v : RawStr), v.val = some 0 →
      (m.map (fun e => e.1.str)).Nodup →
      ∀ x ∈ applyDeltaEntry m (k, v), x.1.str ≠ k.str) := by
  refine ⟨buildBids_sorted (applyOps ops), buildAsks_sorted (applyOps ops),
    applyOps_keys_nodup ops, fun m k v hv h x hx => ?_⟩
  have hd : applyDeltaEntry m (k, v) = mapDelete k m := by
    unfold applyDeltaEntry
    rw [if_pos hv]
  rw [hd] at hx
  exact mapDelete_not_mem h x hx

/-- Witness for the amended C4 at a concrete message history. -/
theorem book_invariant_c4_witness :
    List.Pairwise bidGE
      (buildBids (applyOps [SideOp.snapshot
        [(raw100, ⟨"1", some 1⟩), (raw100dot, ⟨"2", some 2⟩)],
        SideOp.delta [(raw100, ⟨"0", some 0⟩)]])) ∧
    ((⟨"101", some 101⟩ : RawStr), (⟨"2", some 2⟩ : RawStr)).1.str ≠
      raw100.str := by
  constructor
  · exact (book_invariant_c4 [SideOp.snapshot
      [(raw100, ⟨"1", some 1⟩), (raw100dot, ⟨"2", some 2⟩)],
      SideOp.delta [(raw100, ⟨"0", some 0⟩)]]).1
  · exact (book_invariant_c4 []).2.2.2
      [(raw100, ⟨"1", some 1⟩), (⟨"101", some 101⟩, ⟨"2", some 2⟩)]
      raw100 ⟨"0", some 0⟩ rfl
      (by simp [raw100])
      (⟨"101", some 101⟩, ⟨"2", some 2⟩)
      (by simp [applyDeltaEntry, mapDelete, raw100])

/-!
## Claim C3
-/

/-- Claim C3 counterexample: against `asks = [{100,1},{101,2}]` a Buy
Market order of quantity 5 fills only 3 (`filledPercentage = 60`), yet
merging it into an existing position of quantity 1 yields a position of
quantity `1 + 5 = 6` — the code adds the *requested* quantity, not the
filled quantity `3` claimed (which would give `4`). -/
theorem merge_uses_requested_qty_c3 :
    (walkBook Venue.OKX Side.Buy OrderType.Market 0 5 testBook.asks).filledSize = 3 ∧
    (findOrder 0 (executeScheduled 1 paramsC3 (some testBook) [posC3, newC3])).map
      (fun o => o.params.quantity) = some 6 ∧
    (6 : ℚ) ≠ 1 + 3 := by
  refine ⟨?_, ?_, by norm_num⟩
  · norm_num [walkBook, walkStep, consumeLevel, levelSizeInBase, testBook,
      List.foldl, min_def]
  · norm_num [executeScheduled, findOrder, findMergeTarget, entryPrice, removeById,
      markFailed, calculateMarketImpact, walkBook, walkStep, consumeLevel,
      levelSizeInBase, testBook, zeroImpact, posC3, newC3, paramsC3, paramsBuyBtc,
      List.foldl, min_def, Rat.abs_def, Rat.divInt_eq_div]

/-- Claim C3 (amended): a new fill (delayed Market/Limit execution or
added quantity) merged into an existing Filled-Open position with the
same symbol, side and venue adds the *requested* quantity of the new
order to the position — `newQty = oldQty + requestedQty` — and averages
with that requested quantity:
`newAvg = (oldAvg×oldQty + fillAvg×requestedQty) / (oldQty+requestedQty)`.
When the new fill is complete, requested and filled quantity coincide and
the claim's formula holds — in particular qty 1 @ 100 merged with a full
fill of qty 1 @ 110 gives qty 2 @ 105.  The newly filled order record is
discarded after the merge. -/
theorem merge_weighted_average_c3 :
    (∀ (oid : Nat) (params : OrderParams) (book : Book) (orders : List Order)
        (newOrd existing : Order) (er : FillResult),
      findOrder oid orders = some newOrd → newOrd.status = OStatus.Pending →
      ¬(book.bids.isEmpty ∨ book.asks.isEmpty) →
      0 < (calculateMarketImpact params book).filledPercentage →
      findMergeTarget params orders = some existing →
      existing.result = some er → existing.id ≠ oid →
      ({ existing with
          params := { existing.params with
            quantity := existing.params.quantity + params.quantity },
          result := some { er with avgFillPrice :=
            (er.avgFillPrice * existing.params.quantity +
              (calculateMarketImpact params book).avgFillPrice * params.quantity) /
            (existing.params.quantity + params.quantity) } }
        ∈ executeScheduled oid params (some book) orders) ∧
      ∀ x ∈ executeScheduled oid params (some book) orders, x.id ≠ oid) ∧
    (∀ (oid : Nat) (addQty : ℚ) (book : Book) (orders : List Order)
        (om : Order) (r : FillResult),
      findOrder oid orders = some om → om.result = some r →
      ¬(book.bids.isEmpty ∨ book.asks.isEmpty) →
      { om with
          params := { om.params with quantity := om.params.quantity + addQty },
          result := some { r with avgFillPrice :=
            (r.avgFillPrice * om.params.quantity +
              (calculateMarketImpact
                { om.params with quantity := addQty, orderType := OrderType.Market }
                book).avgFillPrice * addQty) /
            (om.params.quantity + addQty) } }
        ∈ handleAddQuantity oid addQty (some book) orders) := by
  constructor
  · intro oid params book orders newOrd existing er hfind hpend hbooks hfill hmt hres hneid
    unfold executeScheduled
    simp only [hfind]
    rw [if_neg (by simp [hpend]), if_neg hbooks, if_pos hfill]
    simp only [hmt]
    refine ⟨mem_removeById (by simpa using hneid) ?_, fun x hx => removeById_id_ne hx⟩
    rw [List.mem_map]
    exact ⟨existing, findMergeTarget_mem hmt, by simp [entryPrice, hres]⟩
  · intro oid addQty book orders om r hfind hres hbooks
    unfold handleAddQuantity
    simp only [hfind]
    rw [if_neg hbooks]
    rw [List.mem_map]
    exact ⟨om, findOrder_mem hfind, by simp [entryPrice, hres, findOrder_id hfind]⟩

/-- Witness for the amended C3: the position qty 1 @ 100 merged with a
complete fill of qty 1 @ 110 becomes qty 2 @ 105, and the new order's
record is gone. -/
theorem merge_weighted_average_c3_witness :
    { posMergeW with
        params := { posMergeW.params with quantity := 2 },
        result := some (⟨105, 0, 100, 0⟩ : FillResult) } ∈
      executeScheduled 1 paramsBuyBtc (some bookMergeW) [posMergeW, newMergeW] := by
  have himp : calculateMarketImpact paramsBuyBtc bookMergeW = ⟨110, 0, 100, 0⟩ := by
    norm_num [calculateMarketImpact, walkBook, walkStep, consumeLevel, levelSizeInBase,
      bookMergeW, paramsBuyBtc, zeroImpact, List.foldl, min_def, Rat.abs_def,
      Rat.divInt_eq_div]
  have h := (merge_weighted_average_c3).1 1 paramsBuyBtc bookMergeW
    [posMergeW, newMergeW] newMergeW posMergeW ⟨100, 0, 100, 0⟩
    (by simp [findOrder, posMergeW, newMergeW])
    rfl
    (by simp [bookMergeW])
    (by rw [himp]; norm_num)
    (by simp [findMergeTarget, posMergeW, paramsBuyBtc])
    rfl
    (by decide)
  have h1 := h.1
  rw [himp] at h1
  convert h1 using 2 <;> norm_num [posMergeW, paramsBuyBtc]

/-!
## Claim C10
-/

theorem mem_filterMap_parseLevel {m : SideMap} {l : Level}
    (h : l ∈ m.filterMap parseLevel) :
    ∃ e ∈ m, e.1.val = some l.price ∧ e.2.val = some l.size := by
  rcases List.mem_filterMap.mp h with ⟨e, he, hpe⟩
  rcases e with ⟨k, v⟩
  cases hk : k.val with
  | none => rw [parseLevel, hk] at hpe; simp at hpe
  | some p =>
    cases hv : v.val with
    | none => rw [parseLevel, hk, hv] at hpe; simp at hpe
    | some s =>
      rw [parseLevel, hk, hv] at hpe
      simp only [Option.some.injEq] at hpe
      subst hpe
      exact ⟨(k, v), he, hk, hv⟩

/-- Claim C10: every level of an exposed book side comes from a raw entry
whose price and size strings both parsed to numbers — entries with a
`NaN` price or size are filtered out by `updateUI` and never reach the
impact simulator or the order evaluation. -/
theorem numeric_levels_c10 (m : SideMap) :
    (∀ l ∈ buildBids m,
      ∃ e ∈ m, e.1.val = some l.price ∧ e.2.val = some l.size) ∧
    (∀ l ∈ buildAsks m,
      ∃ e ∈ m, e.1.val = some l.price ∧ e.2.val = some l.size) := by
  constructor
  · intro l hl
    exact mem_filterMap_parseLevel
      ((List.perm_insertionSort bidGE _).mem_iff.mp hl)
  · intro l hl
    exact mem_filterMap_parseLevel
      ((List.perm_insertionSort askLE _).mem_iff.mp hl)

/-- Witness for C10: in a raw side with one malformed and one well-formed
entry, the exposed level traces back to the well-formed entry. -/
theorem numeric_levels_c10_witness :
    ∃ e ∈ rawSideC10, e.1.val = some (99 : ℚ) ∧ e.2.val = some (1 : ℚ) := by
  have h := (numeric_levels_c10 rawSideC10).1 ⟨99, 1⟩
    (by simp [buildBids, rawSideC10, parseLevel, List.filterMap_cons,
      List.insertionSort, List.orderedInsert])
  simpa using h

/-!
## Claim C5
-/

theorem conditionMet_untriggered_iff {bb ba : ℚ} {o : Order} {sp : ℚ}
    (hst : o.status = OStatus.Untriggered) (hsp : o.stopPrice = some sp) :
    (conditionMet bb ba o = true) ↔
      ((o.params.side = Side.Sell ∧ (bb + ba) / 2 ≤ sp) ∨
       (o.params.side = Side.Buy ∧ sp ≤ (bb + ba) / 2)) := by
  cases hside : o.params.side <;> simp [conditionMet, hst, hsp, hside]

theorem conditionMet_pending_limit_iff {bb ba : ℚ} {o : Order}
    (hst : o.status = OStatus.Pending)
    (hot : o.params.orderType = OrderType.Limit) :
    (conditionMet bb ba o = true) ↔
      ((o.params.side = Side.Buy ∧ ba ≤ o.params.price) ∨
       (o.params.side = Side.Sell ∧ o.params.price ≤ bb)) := by
  cases hside : o.params.side <;> simp [conditionMet, hst, hot, hside]

/-- Claim C5: for an `Untriggered` stop order of the evaluated symbol, one
evaluation pass fires it exactly when the mid-price `(bestBid+bestAsk)/2`
satisfies `midPrice ≤ stopPrice` (Sell side) or `midPrice ≥ stopPrice`
(Buy side).  On firing, the stop is executed as a Market order against
the current book, and if it fills, the referenced position receives
`pnl = calculatePnl position fillAvgPrice` (the stop's fill price as exit
price) and the fill as `exitResult`, while the stop order itself is
removed from the ledger; when the trigger condition fails the ledger is
left unchanged. -/
theorem stop_trigger_c5 (sym : String) (bb ba : ℚ) (book : Book)
    (cur : List Order) (o : Order) (sp : ℚ)
    (hst : o.status = OStatus.Untriggered)
    (hsym : o.params.symbol = sym)
    (hsp : o.stopPrice = some sp) :
    (∀ pos ∈ cur, (cur.map Order.id).Nodup → pos.id ≠ o.id →
      o.positionId = some pos.id →
      ((o.params.side = Side.Sell ∧ (bb + ba) / 2 ≤ sp) ∨
       (o.params.side = Side.Buy ∧ sp ≤ (bb + ba) / 2)) →
      0 < (calculateMarketImpact { o.params with orderType := OrderType.Market }
            book).filledPercentage →
      ({ pos with
          pnl := some (calculatePnl pos
            (calculateMarketImpact { o.params with orderType := OrderType.Market }
              book).avgFillPrice),
          exitResult := some (calculateMarketImpact
            { o.params with orderType := OrderType.Market } book) }
        ∈ processOrder sym bb ba book cur o ∧
       ∀ x ∈ processOrder sym bb ba book cur o, x.id ≠ o.id)) ∧
    (¬((o.params.side = Side.Sell ∧ (bb + ba) / 2 ≤ sp) ∨
       (o.params.side = Side.Buy ∧ sp ≤ (bb + ba) / 2)) →
      processOrder sym bb ba book cur o = cur) := by
  constructor
  · intro pos hpos hnd hne href htrig hfill
    have hcond : conditionMet bb ba o = true :=
      (conditionMet_untriggered_iff hst hsp).mpr htrig
    unfold processOrder
    rw [if_neg (by simp [hsym])]
    simp only [hst, hcond, if_true]
    unfold executeTriggeredOrder
    simp only [hst]
    rw [if_neg (not_le.mpr hfill), href]
    exact ⟨mem_removeById (by simpa using hne) (updateByPosRef_mem_self hnd hpos),
      fun x hx => removeById_id_ne hx⟩
  · intro htrig
    have hcond : conditionMet bb ba o = false :=
      Bool.eq_false_iff.mpr
        (fun hc => htrig ((conditionMet_untriggered_iff hst hsp).mp hc))
    unfold processOrder
    rw [if_neg (by simp [hsym])]
    simp [hst, hcond]

/-- Witness for C5: the Sell stop at 95 on a book with mid-price 90.5
fires, closes the Buy position with `pnl = (90 − 100) × 1 = −10`
(exit price 90, the stop's fill price) and removes the stop order. -/
theorem stop_trigger_c5_witness :
    ({ posC5 with
        pnl := some (-10 : ℚ),
        exitResult := some (⟨90, 0, 100, 0⟩ : FillResult) }
      ∈ processOrder "BTC-USDT" 90 91 bookC5 [posC5, stopC5] stopC5) ∧
    ∀ x ∈ processOrder "BTC-USDT" 90 91 bookC5 [posC5, stopC5] stopC5,
      x.id ≠ stopC5.id := by
  have himp : calculateMarketImpact
      { stopC5.params with orderType := OrderType.Market } bookC5 =
      ⟨90, 0, 100, 0⟩ := by
    norm_num [calculateMarketImpact, walkBook, walkStep, consumeLevel, levelSizeInBase,
      bookC5, stopC5, stopParamsC5, zeroImpact, List.foldl, min_def, Rat.abs_def,
      Rat.divInt_eq_div]
  have h := (stop_trigger_c5 "BTC-USDT" 90 91 bookC5 [posC5, stopC5] stopC5 95
      rfl rfl rfl).1
    posC5 (List.mem_cons_self _ _)
    (by simp [posC5, stopC5])
    (by simp [posC5, stopC5])
    rfl
    (Or.inl ⟨rfl, by norm_num⟩)
    (by rw [himp]; norm_num)
  rw [himp] at h
  have hpnl : calculatePnl posC5 ((⟨90, 0, 100, 0⟩ : FillResult).avgFillPrice) =
      (-10 : ℚ) := by
    norm_num [calculatePnl, posC5, paramsBuyBtc]
  rw [hpnl] at h
  exact h

/-!
## Claim C6
-/

theorem nodup_id_unique :
    ∀ {l : List Order}, (l.map Order.id).Nodup →
      ∀ {a b : Order}, a ∈ l → b ∈ l → a.id = b.id → a = b := by
  intro l
  induction l with
  | nil => intro _ a b ha; simp at ha
  | cons e rest ih =>
    intro h a b ha hb hid
    rw [List.map_cons, List.nodup_cons] at h
    rcases List.mem_cons.mp ha with rfl | ha2
    · rcases List.mem_cons.mp hb with rfl | hb2
      · rfl
      · exact absurd (by rw [hid]; exact List.mem_map_of_mem Order.id hb2) h.1
    · rcases List.mem_cons.mp hb with rfl | hb2
      · exact absurd (by rw [← hid]; exact List.mem_map_of_mem Order.id ha2) h.1
      · exact ih h.2 ha2 hb2 hid

theorem updateById_exists {oid : Nat} {f : Order → Order}
    (hf : ∀ z : Order,
      (f z).id = z.id ∧ (f z).status = z.status ∧ (f z).params = z.params) :
    ∀ {cur : List Order} {y : Order}, y ∈ cur →
      ∃ y2 ∈ updateById oid f cur,
        y2.id = y.id ∧ y2.status = y.status ∧ y2.params = y.params := by
  intro cur
  induction cur with
  | nil => intro y hy; simp at hy
  | cons a rest ih =>
    intro y hy
    rcases List.mem_cons.mp hy with rfl | hrest
    · rw [updateById]
      split
      · exact ⟨f y, List.mem_cons_self _ _, (hf y).1, (hf y).2.1, (hf y).2.2⟩
      · exact ⟨y, List.mem_cons_self _ _, rfl, rfl, rfl⟩
    · rw [updateById]
      split
      · exact ⟨y, List.mem_cons_of_mem _ hrest, rfl, rfl, rfl⟩
      · rcases ih hrest with ⟨y2, hy2, hprops⟩
        exact ⟨y2, List.mem_cons_of_mem _ hy2, hprops⟩

theorem updateByPosRef_exists {pid : Option Nat} {f : Order → Order}
    (hf : ∀ z : Order,
      (f z).id = z.id ∧ (f z).status = z.status ∧ (f z).params = z.params) :
    ∀ {cur : List Order} {y : Order}, y ∈ cur →
      ∃ y2 ∈ updateByPosRef pid f cur,
        y2.id = y.id ∧ y2.status = y.status ∧ y2.params = y.params := by
  intro cur
  induction cur with
  | nil => intro y hy; simp at hy
  | cons a rest ih =>
    intro y hy
    rcases List.mem_cons.mp hy with rfl | hrest
    · rw [updateByPosRef]
      split
      · exact ⟨f y, List.mem_cons_self _ _, (hf y).1, (hf y).2.1, (hf y).2.2⟩
      · exact ⟨y, List.mem_cons_self _ _, rfl, rfl, rfl⟩
    · rw [updateByPosRef]
      split
      · exact ⟨y, List.mem_cons_of_mem _ hrest, rfl, rfl, rfl⟩
      · rcases ih hrest with ⟨y2, hy2, hprops⟩
        exact ⟨y2, List.mem_cons_of_mem _ hy2, hprops⟩

theorem updateById_pending_exists {oid : Nat} {f : Order → Order}
    {cur : List Order} {xid : Nat} {xp : OrderParams} {y : Order}
    (hy : y ∈ cur) (hyid : y.id = xid) (hyst : y.status = OStatus.Pending)
    (hyp : y.params = xp)
    (hf : ∀ z : Order,
      (f z).id = z.id ∧ (f z).status = z.status ∧ (f z).params = z.params) :
    ∃ y2 ∈ updateById oid f cur,
      y2.id = xid ∧ y2.status = OStatus.Pending ∧ y2.params = xp := by
  rcases updateById_exists hf hy with ⟨y2, hy2, h1, h2, h3⟩
  exact ⟨y2, hy2, h1.trans hyid, h2.trans hyst, h3.trans hyp⟩

theorem close_remove_exists {roid : Nat} {pid : Option Nat} {f : Order → Order}
    {cur : List Order} {xid : Nat} {xp : OrderParams} {y : Order}
    (hy : y ∈ cur) (hyid : y.id = xid) (hyst : y.status = OStatus.Pending)
    (hyp : y.params = xp) (hne : xid ≠ roid)
    (hf : ∀ z : Order,
      (f z).id = z.id ∧ (f z).status = z.status ∧ (f z).params = z.params) :
    ∃ y2 ∈ removeById roid (updateByPosRef pid f cur),
      y2.id = xid ∧ y2.status = OStatus.Pending ∧ y2.params = xp := by
  rcases updateByPosRef_exists hf hy with ⟨y2, hy2, h1, h2, h3⟩
  refine ⟨y2, mem_removeById ?_ hy2, h1.trans hyid, h2.trans hyst, h3.trans hyp⟩
  rw [h1, hyid]
  exact hne

theorem executeTriggeredOrder_ids_nodup (book : Book) (cur : List Order)
    (o : Order) (h : (cur.map Order.id).Nodup) :
    (((executeTriggeredOrder book cur o).2).map Order.id).Nodup := by
  unfold executeTriggeredOrder
  split <;> (dsimp only; split)
  all_goals first
    | exact h
    | (refine ((removeById_sublist _).map Order.id).nodup ?_
       apply updateByPosRef_ids_nodup
       · exact fun z => rfl
       · exact h)
    | (apply updateById_ids_nodup
       · exact fun z => rfl
       · exact h)

theorem processOrder_ids_nodup (sym : String) (bb ba : ℚ) (book : Book)
    (cur : List Order) (o : Order) (h : (cur.map Order.id).Nodup) :
    ((processOrder sym bb ba book cur o).map Order.id).Nodup := by
  unfold processOrder
  by_cases hsym : o.params.symbol ≠ sym
  · rw [if_pos hsym]
    split
    all_goals first
      | exact h
      | (try dsimp only
         split
         · exact h
         · apply updateById_ids_nodup
           · exact fun z => rfl
           · exact h)
  · rw [if_neg hsym]
    have hstep : ∀ cur1 : List Order, (cur1.map Order.id).Nodup →
        ((if conditionMet bb ba o then (executeTriggeredOrder book cur1 o).2
          else cur1).map Order.id).Nodup := by
      intro cur1 h1
      split
      · exact executeTriggeredOrder_ids_nodup book cur1 o h1
      · exact h1
    refine hstep _ ?_
    split
    all_goals first
      | exact h
      | (try dsimp only
         split
         · exact h
         · apply updateById_ids_nodup
           · exact fun z => rfl
           · exact h)

theorem processOrder_preserves_pending (sym : String) (bb ba : ℚ) (book : Book)
    (startList : List Order) (hnd0 : (startList.map Order.id).Nodup)
    (xid : Nat) (xp : OrderParams)
    (hxot : xp.orderType = OrderType.Limit)
    (hxcond : ¬((xp.side = Side.Buy ∧ ba ≤ xp.price) ∨
      (xp.side = Side.Sell ∧ xp.price ≤ bb)))
    (w : Order) (hw : w ∈ startList) (hwid : w.id = xid)
    (hwst : w.status = OStatus.Pending) (hwp : w.params = xp)
    (o : Order) (ho : o ∈ startList)
    (cur : List Order) (y : Order) (hy : y ∈ cur) (hyid : y.id = xid)
    (hyst : y.status = OStatus.Pending) (hyp : y.params = xp) :
    ∃ y2 ∈ processOrder sym bb ba book cur o,
      y2.id = xid ∧ y2.status = OStatus.Pending ∧ y2.params = xp := by
  by_cases hoid : o.id = xid
  · have ho_w : o = w := nodup_id_unique hnd0 ho hw (hoid.trans hwid.symm)
    have host : o.status = OStatus.Pending := by rw [ho_w]; exact hwst
    have hop : o.params = xp := by rw [ho_w]; exact hwp
    have hcond : conditionMet bb ba o = false := by
      refine Bool.eq_false_iff.mpr (fun hc => hxcond ?_)
      have h2 := (conditionMet_pending_limit_iff host
        (by rw [hop]; exact hxot)).mp hc
      rwa [hop] at h2
    unfold processOrder
    by_cases hsym : o.params.symbol ≠ sym
    · rw [if_pos hsym]
      split
      all_goals first
        | exact ⟨y, hy, hyid, hyst, hyp⟩
        | (try dsimp only
           split
           · exact ⟨y, hy, hyid, hyst, hyp⟩
           · apply updateById_pending_exists hy hyid hyst hyp
             exact fun z => ⟨rfl, rfl, rfl⟩)
    · rw [if_neg hsym]
      simp only [host, hcond, Bool.false_eq_true, if_false]
      exact ⟨y, hy, hyid, hyst, hyp⟩
  · unfold processOrder
    by_cases hsym : o.params.symbol ≠ sym
    · rw [if_pos hsym]
      split
      all_goals first
        | exact ⟨y, hy, hyid, hyst, hyp⟩
        | (try dsimp only
           split
           · exact ⟨y, hy, hyid, hyst, hyp⟩
           · apply updateById_pending_exists hy hyid hyst hyp
             exact fun z => ⟨rfl, rfl, rfl⟩)
    · rw [if_neg hsym]
      have hcur1 : ∀ cur1 : List Order,
          (∃ y1 ∈ cur1, y1.id = xid ∧ y1.status = OStatus.Pending ∧
            y1.params = xp) →
          ∃ y2 ∈ (if conditionMet bb ba o then
              (executeTriggeredOrder book cur1 o).2 else cur1),
            y2.id = xid ∧ y2.status = OStatus.Pending ∧ y2.params = xp := by
        intro cur1 hex
        rcases hex with ⟨y1, hy1, h1, h2, h3⟩
        split
        · unfold executeTriggeredOrder
          split <;> (dsimp only; split)
          all_goals first
            | exact ⟨y1, hy1, h1, h2, h3⟩
            | (apply close_remove_exists hy1 h1 h2 h3 (fun hh => hoid hh.symm)
               exact fun z => ⟨rfl, rfl, rfl⟩)
            | (refine ⟨y1, mem_updateById_of_ne ?_ hy1, h1, h2, h3⟩
               rw [h1]
               exact fun hh => hoid hh.symm)
        · exact ⟨y1, hy1, h1, h2, h3⟩
      refine hcur1 _ ?_
      split
      all_goals first
        | exact ⟨y, hy, hyid, hyst, hyp⟩
        | (try dsimp only
           split
           · exact ⟨y, hy, hyid, hyst, hyp⟩
           · apply updateById_pending_exists hy hyid hyst hyp
             exact fun z => ⟨rfl, rfl, rfl⟩)

theorem evalStep_preserves_pending (sym : String) (book : Book)
    (orders : List Order) (hnd : (orders.map Order.id).Nodup)
    (xid : Nat) (xp : OrderParams)
    (hxot : xp.orderType = OrderType.Limit)
    (hnever : ¬ limitWouldFill xp book)
    (y : Order) (hy : y ∈ orders) (hyid : y.id = xid)
    (hyst : y.status = OStatus.Pending) (hyp : y.params = xp) :
    ((evalStep sym book orders).map Order.id).Nodup ∧
    ∃ y2 ∈ evalStep sym book orders,
      y2.id = xid ∧ y2.status = OStatus.Pending ∧ y2.params = xp := by
  unfold evalStep
  cases hb : book.bids with
  | nil => exact ⟨hnd, y, hy, hyid, hyst, hyp⟩
  | cons b0 bt =>
    cases ha : book.asks with
    | nil => exact ⟨hnd, y, hy, hyid, hyst, hyp⟩
    | cons a0 at2 =>
      dsimp only
      by_cases hg : (b0.price + a0.price) / 2 = 0 ∨ b0.price = 0 ∨ a0.price = 0
      · rw [if_pos hg]
        exact ⟨hnd, y, hy, hyid, hyst, hyp⟩
      · rw [if_neg hg]
        have hxcond : ¬((xp.side = Side.Buy ∧ a0.price ≤ xp.price) ∨
            (xp.side = Side.Sell ∧ xp.price ≤ b0.price)) := by
          intro hc
          refine hnever ?_
          unfold limitWouldFill
          rw [hb, ha]
          exact ⟨hg, hc⟩
        refine foldl_invariant (processOrder sym b0.price a0.price book)
          (fun cur : List Order => ((cur.map Order.id).Nodup ∧
            ∃ y2 ∈ cur, y2.id = xid ∧ y2.status = OStatus.Pending ∧
              y2.params = xp))
          (orders.filter needsProcessing) orders ⟨hnd, y, hy, hyid, hyst, hyp⟩ ?_
        intro acc a hafilter hacc
        rcases hacc with ⟨hacc1, y1, hy1, k1, k2, k3⟩
        exact ⟨processOrder_ids_nodup sym b0.price a0.price book acc a hacc1,
          processOrder_preserves_pending sym b0.price a0.price book orders hnd
            xid xp hxot hxcond y hy hyid hyst hyp a
            (List.mem_filter.mp hafilter).1 acc y1 hy1 k1 k2 k3⟩

/-- Claim C6: a `Pending` Limit order is marketable exactly when
`limitPrice ≥ bestAsk` (Buy) or `limitPrice ≤ bestBid` (Sell), and across
any sequence of book updates on which this condition never holds the
order's record keeps status `Pending` (and its parameters, in particular
its limit price) — a Sell limit priced above the best bid never fills
until the best bid rises to or above the limit. -/
theorem limit_stays_pending_c6 (sym : String) (books : List Book)
    (orders : List Order) (x : Order) (hx : x ∈ orders)
    (hnd : (orders.map Order.id).Nodup)
    (hxst : x.status = OStatus.Pending)
    (hxot : x.params.orderType = OrderType.Limit)
    (hnever : ∀ b ∈ books, ¬ limitWouldFill x.params b) :
    (∀ bb ba : ℚ, (conditionMet bb ba x = true) ↔
      ((x.params.side = Side.Buy ∧ ba ≤ x.params.price) ∨
       (x.params.side = Side.Sell ∧ x.params.price ≤ bb))) ∧
    ∃ y ∈ evalSteps sym books orders,
      y.id = x.id ∧ y.status = OStatus.Pending ∧ y.params = x.params := by
  refine ⟨fun bb ba => conditionMet_pending_limit_iff hxst hxot, ?_⟩
  unfold evalSteps
  have h := foldl_invariant (fun os b => evalStep sym b os)
    (fun os : List Order => ((os.map Order.id).Nodup ∧
      ∃ y ∈ os, y.id = x.id ∧ y.status = OStatus.Pending ∧
        y.params = x.params))
    books orders ⟨hnd, x, hx, rfl, hxst, rfl⟩ ?_
  · exact h.2
  · intro os b hb hos
    rcases hos with ⟨h1, y, hy, k1, k2, k3⟩
    exact evalStep_preserves_pending sym b os h1 x.id x.params hxot
      (hnever b hb) y hy k1 k2 k3

/-- Witness for C6: the Sell Limit at 105 stays `Pending` over two ticks
whose best bids are 100 and 102. -/
theorem limit_stays_pending_c6_witness :
    ∃ y ∈ evalSteps "BTC-USDT" [bookC6a, bookC6b] [pendC6],
      y.id = pendC6.id ∧ y.status = OStatus.Pending ∧
      y.params = pendC6.params := by
  refine (limit_stays_pending_c6 "BTC-USDT" [bookC6a, bookC6b] [pendC6] pendC6
    (List.mem_cons_self _ _) (by simp) rfl rfl ?_).2
  intro b hb
  rcases List.mem_cons.mp hb with rfl | hb
  · norm_num [limitWouldFill, pendC6, bookC6a]
    simp
  rcases List.mem_cons.mp hb with rfl | hb
  · norm_num [limitWouldFill, pendC6, bookC6b]
    simp
  · simp at hb

end GqTask
